import Mathlib

/-!
Verification of the browser-side image optimization pipeline
(src/utils/imageOptimizer.ts) against its natural-language
specification.

The pipeline is shallowly embedded: external browser capabilities
(dimension probing, canvas resizing, the compression library, WebP
encoding) are modelled as an explicit environment of fallible
functions, and JavaScript numbers are modelled as rationals.  A run of
optimizeImage returns either the synchronous invalid-input error or
the produced file together with the trace of progress values handed to
the onProgress callback.

The rational arithmetic of the embedding is written with executable
mirrors (qAdd, qSub, qMul, qDiv, jsRound, jsAbs, jsMax, jsMin) because
the library operations on ℚ are irreducible and would block kernel
evaluation of concrete runs; each mirror is proved equal to the
corresponding standard operation, and all theorem statements use the
standard operations.  jsRound models JavaScript Math.round (half rounds
toward positive infinity), and jsAbs, jsMax, jsMin model Math.abs,
Math.max and Math.min.
-/

namespace ImgOpt

/-- An image file as the pipeline observes it: name, MIME type and byte
size. -/
structure File where
  name : String
  type : String
  size : Nat
deriving DecidableEq

/-- A width/height pair (JavaScript numbers modelled as rationals). -/
structure Dimensions where
  width : ℚ
  height : ℚ
deriving DecidableEq

/-- A binary blob; only its byte size is observable to the pipeline. -/
structure Blob where
  size : Nat
deriving DecidableEq

/-- The recognized optimization options after merging.  A TypeScript
optional field is an Option; an absent or undefined field is none.
The onProgress callback is modelled by its presence alone. -/
structure ImageOptimizationOptions where
  maxWidthOrHeight : Option ℚ := none
  maxSizeMB : Option ℚ := none
  quality : Option ℚ := none
  useWebP : Option Bool := none
  debug : Option Bool := none
  onProgress : Option Unit := none
  enableSmartResize : Option Bool := none
  maxSmartDimension : Option ℚ := none
  resizeThreshold : Option ℚ := none
deriving DecidableEq

/-- The caller's Partial options.  Each field is either absent (outer
none) or present with a possibly-undefined value (inner Option); object
spread distinguishes the two, which is why both layers are needed. -/
structure PartialOptions where
  maxWidthOrHeight : Option (Option ℚ) := none
  maxSizeMB : Option (Option ℚ) := none
  quality : Option (Option ℚ) := none
  useWebP : Option (Option Bool) := none
  debug : Option (Option Bool) := none
  onProgress : Option (Option Unit) := none
  enableSmartResize : Option (Option Bool) := none
  maxSmartDimension : Option (Option ℚ) := none
  resizeThreshold : Option (Option ℚ) := none
deriving DecidableEq

/-- Executable addition on ℚ, equal to + by qAdd_eq. -/
def qAdd (a b : ℚ) : ℚ := Rat.divInt (a.num * b.den + b.num * a.den) (a.den * b.den)

/-- Executable subtraction on ℚ, equal to - by qSub_eq. -/
def qSub (a b : ℚ) : ℚ := Rat.divInt (a.num * b.den - b.num * a.den) (a.den * b.den)

/-- Executable multiplication on ℚ, equal to * by qMul_eq. -/
def qMul (a b : ℚ) : ℚ := Rat.divInt (a.num * b.num) (a.den * b.den)

/-- Executable division on ℚ, equal to / by qDiv_eq. -/
def qDiv (a b : ℚ) : ℚ := Rat.divInt (a.num * b.den) (a.den * b.num)

theorem qAdd_eq (a b : ℚ) : qAdd a b = a + b := by
  have ha : ((a.den : ℚ)) ≠ 0 := Nat.cast_ne_zero.mpr a.den_nz
  have hb : ((b.den : ℚ)) ≠ 0 := Nat.cast_ne_zero.mpr b.den_nz
  have hA : ((a.num : ℚ)) = a * a.den := (div_eq_iff ha).mp (Rat.num_div_den a)
  have hB : ((b.num : ℚ)) = b * b.den := (div_eq_iff hb).mp (Rat.num_div_den b)
  rw [qAdd, Rat.divInt_eq_div]
  push_cast
  rw [hA, hB, div_eq_iff (mul_ne_zero ha hb)]
  ring

theorem qSub_eq (a b : ℚ) : qSub a b = a - b := by
  have ha : ((a.den : ℚ)) ≠ 0 := Nat.cast_ne_zero.mpr a.den_nz
  have hb : ((b.den : ℚ)) ≠ 0 := Nat.cast_ne_zero.mpr b.den_nz
  have hA : ((a.num : ℚ)) = a * a.den := (div_eq_iff ha).mp (Rat.num_div_den a)
  have hB : ((b.num : ℚ)) = b * b.den := (div_eq_iff hb).mp (Rat.num_div_den b)
  rw [qSub, Rat.divInt_eq_div]
  push_cast
  rw [hA, hB, div_eq_iff (mul_ne_zero ha hb)]
  ring

theorem qMul_eq (a b : ℚ) : qMul a b = a * b := by
  have ha : ((a.den : ℚ)) ≠ 0 := Nat.cast_ne_zero.mpr a.den_nz
  have hb : ((b.den : ℚ)) ≠ 0 := Nat.cast_ne_zero.mpr b.den_nz
  have hA : ((a.num : ℚ)) = a * a.den := (div_eq_iff ha).mp (Rat.num_div_den a)
  have hB : ((b.num : ℚ)) = b * b.den := (div_eq_iff hb).mp (Rat.num_div_den b)
  rw [qMul, Rat.divInt_eq_div]
  push_cast
  rw [hA, hB, div_eq_iff (mul_ne_zero ha hb)]
  ring

theorem qDiv_eq (a b : ℚ) : qDiv a b = a / b := by
  rcases eq_or_ne b 0 with hb0 | hb0
  · subst hb0
    rw [qDiv]
    simp
  · have ha : ((a.den : ℚ)) ≠ 0 := Nat.cast_ne_zero.mpr a.den_nz
    have hbd : ((b.den : ℚ)) ≠ 0 := Nat.cast_ne_zero.mpr b.den_nz
    have hA : ((a.num : ℚ)) = a * a.den := (div_eq_iff ha).mp (Rat.num_div_den a)
    have hB : ((b.num : ℚ)) = b * b.den := (div_eq_iff hbd).mp (Rat.num_div_den b)
    rw [qDiv, Rat.divInt_eq_div]
    push_cast
    rw [hA, hB, div_eq_div_iff (mul_ne_zero ha (mul_ne_zero hb0 hbd)) hb0]
    ring

/-- JavaScript Math.abs on rationals, written with an if so that it
evaluates inside decide. -/
def jsAbs (q : ℚ) : ℚ := if q < 0 then -q else q

/-- jsAbs agrees with the absolute value. -/
theorem jsAbs_eq_abs (q : ℚ) : jsAbs q = |q| := by
  rw [jsAbs]
  split
  · rw [abs_of_neg]
    assumption
  · rw [abs_of_nonneg]
    exact le_of_not_lt (by assumption)

/-- JavaScript Math.max on rationals, written with an if so that it
evaluates inside decide. -/
def jsMax (a b : ℚ) : ℚ := if a < b then b else a

/-- jsMax agrees with max. -/
theorem jsMax_eq_max (a b : ℚ) : jsMax a b = max a b := by
  rw [jsMax, max_def]
  by_cases h1 : a < b
  · rw [if_pos h1, if_pos h1.le]
  · rw [if_neg h1]
    by_cases h2 : a ≤ b
    · rw [if_pos h2]
      exact le_antisymm h2 (not_lt.mp h1)
    · rw [if_neg h2]

/-- JavaScript Math.min on integers, written with an if so that it
evaluates inside decide. -/
def jsMin (a b : ℤ) : ℤ := if a < b then a else b

/-- jsMin agrees with min. -/
theorem jsMin_eq_min (a b : ℤ) : jsMin a b = min a b := by
  rw [jsMin, min_def]
  by_cases h1 : a < b
  · rw [if_pos h1, if_pos h1.le]
  · rw [if_neg h1]
    by_cases h2 : a ≤ b
    · rw [if_pos h2]
      exact le_antisymm (not_lt.mp h1) h2
    · rw [if_neg h2]

/-- JavaScript Math.round modelled on rationals: floor of q + 1/2, so a
half rounds toward positive infinity, exactly as Math.round does.  It is
written with integer arithmetic on Rat.num and Rat.den so that it
evaluates inside decide. -/
def jsRound (q : ℚ) : ℤ := (2 * q.num + (q.den : ℤ)) / (2 * (q.den : ℤ))

/-- jsRound agrees with Mathlib round on the rationals. -/
theorem jsRound_eq_round (q : ℚ) : jsRound q = round q := by
  have hd : ((q.den : ℚ)) ≠ 0 := Nat.cast_ne_zero.mpr q.den_nz
  have hA : ((q.num : ℚ)) = q * q.den := (div_eq_iff hd).mp (Rat.num_div_den q)
  have hd2 : (((2 * q.den : ℕ) : ℚ)) ≠ 0 :=
    Nat.cast_ne_zero.mpr (Nat.mul_ne_zero (by norm_num) q.den_nz)
  have harg : q + 1/2 = (((2 * q.num + (q.den : ℤ) : ℤ) : ℚ)) / (((2 * q.den : ℕ) : ℚ)) := by
    rw [eq_div_iff hd2]
    push_cast
    rw [hA]
    ring
  rw [jsRound, round_eq, harg, Rat.floor_intCast_div_natCast]
  push_cast
  rfl

/-- jsRound is monotone. -/
theorem jsRound_mono {q r : ℚ} (h : q ≤ r) : jsRound q ≤ jsRound r := by
  rw [jsRound_eq_round, jsRound_eq_round, round_eq, round_eq]
  exact Int.floor_mono (by linarith)

/-- defaultOptions of the source; onProgress is explicitly undefined
there, hence none. -/
def defaultOptions : ImageOptimizationOptions where
  maxWidthOrHeight := some 1920
  maxSizeMB := some 1
  quality := some (mkRat 4 5)
  useWebP := some true
  debug := some false
  onProgress := none
  enableSmartResize := some true
  maxSmartDimension := some 400
  resizeThreshold := some 800

/-- Object spread { ...d, ...c } on these flat records: every key
present in c overrides the corresponding key of d, including keys whose
present value is undefined. -/
def mergeOptions (d : ImageOptimizationOptions) (c : PartialOptions) : ImageOptimizationOptions where
  maxWidthOrHeight := c.maxWidthOrHeight.getD d.maxWidthOrHeight
  maxSizeMB := c.maxSizeMB.getD d.maxSizeMB
  quality := c.quality.getD d.quality
  useWebP := c.useWebP.getD d.useWebP
  debug := c.debug.getD d.debug
  onProgress := c.onProgress.getD d.onProgress
  enableSmartResize := c.enableSmartResize.getD d.enableSmartResize
  maxSmartDimension := c.maxSmartDimension.getD d.maxSmartDimension
  resizeThreshold := c.resizeThreshold.getD d.resizeThreshold

/-- JavaScript truthiness of an optional boolean option value. -/
def truthy (b : Option Bool) : Bool := b.getD false

/-- JavaScript `x || d` for an optional numeric option: undefined and 0
are falsy and select the default. -/
def numOr (o : Option ℚ) (d : ℚ) : ℚ :=
  match o with
  | none => d
  | some x => if x = 0 then d else x

/-- calculateSmartDimensions of the source.  An aspect ratio within 0.1
of 1 counts as square and yields 200 by 200; otherwise the shorter side
becomes 200 and the longer side is the rounded proportional scale.  The
third argument is accepted and ignored, exactly as in the source. -/
def calculateSmartDimensions (originalWidth originalHeight : ℚ) (_maxDimension : ℚ) : Dimensions :=
  if jsAbs (qSub (qDiv originalWidth originalHeight) 1) < mkRat 1 10 then
    { width := 200, height := 200 }
  else if originalWidth > originalHeight then
    { width := ((jsRound (qMul 200 (qDiv originalWidth originalHeight))) : ℚ), height := 200 }
  else
    { width := 200, height := ((jsRound (qDiv 200 (qDiv originalWidth originalHeight))) : ℚ) }

/-- calculateSmartDimensions restated with the standard rational
operations, for use in every proof about it. -/
theorem calculateSmartDimensions_eq (w h m : ℚ) :
    calculateSmartDimensions w h m =
      if |w / h - 1| < 1/10 then
        { width := 200, height := 200 }
      else if w > h then
        { width := ((round ((200 : ℚ) * (w / h))) : ℚ), height := 200 }
      else
        { width := 200, height := ((round ((200 : ℚ) / (w / h))) : ℚ) } := by
  have hmk : mkRat 1 10 = (1/10 : ℚ) := by
    rw [Rat.mkRat_eq_div]
    norm_num
  rw [calculateSmartDimensions]
  simp only [qDiv_eq, qSub_eq, qMul_eq, jsAbs_eq_abs, jsRound_eq_round, hmk]

/-- C4 counterexample: the aspect ratio 11/10 lies in the closed
interval [0.909, 1.1] named by the claim, yet calculateSmartDimensions
classifies 11 by 10 as non-square (the code requires the distance to 1
to be strictly below 0.1) and returns 220 by 200, not 200 by 200. -/
theorem calculateSmartDimensions_ratio_eleven_tenths_not_square :
    (909/1000 : ℚ) ≤ (11 : ℚ)/10 ∧ ((11 : ℚ)/10 ≤ 11/10) ∧ (0 : ℚ) < 11 ∧ (0 : ℚ) < 10 ∧
    calculateSmartDimensions 11 10 400 = { width := 220, height := 200 } ∧
    ¬ calculateSmartDimensions 11 10 400 = { width := 200, height := 200 } := by
  have h220 : calculateSmartDimensions 11 10 400 = { width := 220, height := 200 } := by
    have hcond : ¬ |(11 : ℚ)/10 - 1| < 1/10 := by
      rw [show ((11 : ℚ)/10 - 1) = 1/10 by norm_num,
        abs_of_nonneg (by norm_num : (0 : ℚ) ≤ 1/10)]
      norm_num
    rw [calculateSmartDimensions_eq, if_neg hcond,
      if_pos (by norm_num), show ((200 : ℚ) * (11/10)) = 220 by norm_num]
    norm_num
  refine ⟨by norm_num, le_refl _, by norm_num, by norm_num, h220, ?_⟩
  rw [h220]
  intro hEq
  have hcontra : (220 : ℚ) = 200 := congrArg Dimensions.width hEq
  norm_num at hcontra

/-- C4 (amended): for positive dimensions whose aspect ratio is exactly
1 or lies within the half-open interval [0.909, 1.1),
calculateSmartDimensions returns 200 by 200; the right endpoint 1.1
itself is excluded because the code's square test is strict. -/
theorem calculateSmartDimensions_square_band (w h m : ℚ) (hw : 0 < w) (hh : 0 < h)
    (hr : w / h = 1 ∨ (909/1000 ≤ w / h ∧ w / h < 11/10)) :
    calculateSmartDimensions w h m = { width := 200, height := 200 } := by
  have hsq : |w / h - 1| < 1/10 := by
    rcases hr with h1 | ⟨hlo, hhi⟩
    · rw [h1]
      norm_num
    · rw [abs_sub_lt_iff]
      constructor <;> linarith
  rw [calculateSmartDimensions_eq, if_pos hsq]

/-- C4 witness: 200 by 220 has aspect ratio 10/11, inside [0.909, 1.1),
and is mapped to 200 by 200. -/
theorem calculateSmartDimensions_square_band_witness :
    calculateSmartDimensions 200 220 400 = { width := 200, height := 200 } :=
  calculateSmartDimensions_square_band 200 220 400 (by norm_num) (by norm_num)
    (Or.inr (by norm_num))

/-- C5: for positive dimensions not classified as square, the shorter
side of the result is exactly 200 and the longer side is the rounded
proportional scale of 200 by the ratio of longer to shorter side; the
two sides cannot be equal, and the result does not depend on the
maxSmartDimension argument at all. -/
theorem calculateSmartDimensions_nonsquare (w h m m' : ℚ) (hw : 0 < w) (hh : 0 < h)
    (hns : ¬ |w / h - 1| < 1/10) :
    (h < w → calculateSmartDimensions w h m =
        { width := ((round ((200 : ℚ) * (w / h))) : ℚ), height := 200 }) ∧
    (w < h → calculateSmartDimensions w h m =
        { width := 200, height := ((round ((200 : ℚ) * (h / w))) : ℚ) }) ∧
    w ≠ h ∧
    calculateSmartDimensions w h m = calculateSmartDimensions w h m' := by
  refine ⟨?_, ?_, ?_, rfl⟩
  · intro hlt
    rw [calculateSmartDimensions_eq, if_neg hns, if_pos hlt]
  · intro hlt
    rw [calculateSmartDimensions_eq, if_neg hns, if_neg (not_lt.mpr hlt.le)]
    have harg : (200 : ℚ) / (w / h) = 200 * (h / w) := by
      rw [div_div_eq_mul_div, mul_div_assoc]
    rw [harg]
  · intro heq
    apply hns
    rw [heq, div_self hh.ne']
    norm_num

/-- C5 witness: 800 by 400 (ratio 2) is scaled to 400 by 200, and the
maxSmartDimension argument is irrelevant. -/
theorem calculateSmartDimensions_nonsquare_witness :
    calculateSmartDimensions 800 400 123 = { width := 400, height := 200 } ∧
    calculateSmartDimensions 800 400 123 = calculateSmartDimensions 800 400 999 := by
  have hmain := calculateSmartDimensions_nonsquare 800 400 123 999 (by norm_num) (by norm_num)
    (by norm_num)
  refine ⟨(hmain.1 (by norm_num)).trans ?_, hmain.2.2.2⟩
  rw [show ((200 : ℚ) * (800/400)) = 400 by norm_num]
  norm_num

/-- The options record passed to the browser-image-compression library,
as assembled by optimizeImage (lines 172-187 of the source). -/
structure CompressionOptions where
  maxSizeMB : Option ℚ
  maxWidthOrHeight : Option ℚ
  useWebWorker : Bool
  initialQuality : Option ℚ
  fileType : String
  alwaysKeepResolution : Bool
  exifOrientation : ℕ
deriving DecidableEq

/-- The environment of external browser capabilities: WebP support of
the runtime, the dimension probe, the canvas resize encoder, the
compression library (with the progress values it reports during the
call), and the WebP encoder.  A none result models a thrown error or a
rejected promise. -/
structure Env where
  webpSupported : Bool
  getImageDimensions : File → Option Dimensions
  resizeBlob : File → ℚ → ℚ → ℚ → Option Blob
  imageCompression : File → CompressionOptions → Option File
  compressProgress : List ℚ
  convertToWebP : File → Option ℚ → Option Blob

/-- isWebPSupported of the source, which probes the runtime. -/
def isWebPSupported (env : Env) : Bool := env.webpSupported

/-- updateProgress of the source: when a callback is present it receives
min(Math.round(progress), 100); the delivered values are accumulated in
a trace. -/
def updateProgress (options : ImageOptimizationOptions) (acc : List ℤ) (p : ℚ) : List ℤ :=
  if options.onProgress.isSome then acc ++ [jsMin (jsRound p) 100] else acc

/-- The remapping of the compression library progress into the 15-65
band: 15 + progress * 0.5 (line 184 of the source). -/
def mapCompressProgress (p : ℚ) : ℚ := qAdd 15 (qMul p (mkRat 1 2))

/-- smartResizeImage of the source: the canvas encoder produces a blob
(or fails) and the result file keeps the input name and type, with
image/jpeg substituted for an empty type. -/
def smartResizeImage (env : Env) (file : File) (targetWidth targetHeight quality : ℚ) :
    Option File :=
  match env.resizeBlob file targetWidth targetHeight quality with
  | some blob =>
    some { name := file.name
           type := if file.type = "" then "image/jpeg" else file.type
           size := blob.size }
  | none => none

/-- The JavaScript replace of the final extension with .webp, from line
214 of the source: the regex matches a final dot followed by one or more
characters none of which is a dot or a slash; with no match the name is
unchanged. -/
def replaceExtWithWebp (name : String) : String :=
  let rl := name.toList.reverse
  let ext := rl.takeWhile (fun c => c != '.' && c != '/')
  match rl.dropWhile (fun c => c != '.' && c != '/') with
  | c :: stemRev =>
    if c == '.' && !ext.isEmpty then String.mk (stemRev.reverse ++ ".webp".toList) else name
  | [] => name

/-- Lines 121-128 of optimizeImage: probe the dimensions; on success
report progress 10, on failure proceed without dimensions. -/
def probeStage (env : Env) (imageFile : File) (options : ImageOptimizationOptions)
    (prog : List ℤ) : Option Dimensions × List ℤ :=
  match env.getImageDimensions imageFile with
  | some d => (some d, updateProgress options prog 10)
  | none => (none, prog)

/-- Lines 130-164 of optimizeImage: the smart-resize decision and
attempt.  Returns the processed file, whether a resized file was adopted
(JavaScript identity processedFile !== imageFile), and the trace. -/
def resizeStage (env : Env) (imageFile : File) (options : ImageOptimizationOptions)
    (dims : Option Dimensions) (prog : List ℤ) : File × Bool × List ℤ :=
  match dims with
  | none => (imageFile, false, prog)
  | some d =>
    if truthy options.enableSmartResize then
      if jsMax d.width d.height > numOr options.resizeThreshold 800 then
        let prog2 := updateProgress options prog 12
        let sd := calculateSmartDimensions d.width d.height (numOr options.maxSmartDimension 400)
        match smartResizeImage env imageFile sd.width sd.height (mkRat 95 100) with
        | some f => (f, true, updateProgress options prog2 14)
        | none => (imageFile, false, prog2)
      else (imageFile, false, prog)
    else (imageFile, false, prog)

/-- Whether pat occurs as a contiguous run inside l, by structural
recursion so that it evaluates inside decide; this models the JavaScript
String.includes used on the MIME type. -/
def hasInfix (pat : List Char) : List Char → Bool
  | [] => pat.isEmpty
  | c :: t => pat.isPrefixOf (c :: t) || hasInfix pat t

/-- JavaScript s.includes(pat). -/
def strIncludes (s pat : String) : Bool := hasInfix pat.toList s.toList

/-- Lines 196-200 of optimizeImage: a compressed result larger than its
input is discarded in favour of the pre-compression file. -/
def compressSelect (processedFile compressed0 : File) : File :=
  if compressed0.size > processedFile.size then processedFile else compressed0

/-- Lines 205-227 of optimizeImage: the optional WebP conversion.  Only
attempted under the useWebP flag and a non-WebP current type; a
successful conversion is adopted only when strictly smaller. -/
def webpStage (env : Env) (imageFile : File) (options : ImageOptimizationOptions)
    (fileType : String) (useWebP : Bool) (compressedFile : File) (prog : List ℤ) :
    File × List ℤ :=
  if useWebP && !(strIncludes fileType "webp") then
    let prog2 := updateProgress options prog 75
    match env.convertToWebP compressedFile options.quality with
    | some compressedBlob =>
      let prog3 := updateProgress options prog2 85
      let webpFile : File :=
        { name := replaceExtWithWebp imageFile.name
          type := "image/webp"
          size := compressedBlob.size }
      if webpFile.size < compressedFile.size then
        (webpFile, updateProgress options prog3 90)
      else
        (compressedFile, updateProgress options prog3 90)
    | none => (compressedFile, prog2)
  else (compressedFile, prog)

/-- Lines 196-250 of optimizeImage after the compression call returned:
size-regression discard, WebP conversion, the debug dimension probes
(which can throw into the outer catch), and the final 100 report. -/
def afterCompress (env : Env) (imageFile : File) (options : ImageOptimizationOptions)
    (fileType : String) (processedFile compressed0 : File) (prog : List ℤ) :
    Except (List ℤ) (File × List ℤ) :=
  let compressedFile := compressSelect processedFile compressed0
  let useWebP := truthy options.useWebP && isWebPSupported env
  let ws := webpStage env imageFile options fileType useWebP compressedFile prog
  if truthy options.debug then
    match env.getImageDimensions imageFile, env.getImageDimensions ws.1 with
    | some _, some _ => .ok (ws.1, updateProgress options ws.2 100)
    | _, _ => .error ws.2
  else
    .ok (ws.1, updateProgress options ws.2 100)

/-- The try block of optimizeImage (lines 120-242).  An error value
carries the trace accumulated up to the throw; the compression library
may fail after reporting progress, and in debug mode the dimension
probes of line 236-237 may throw. -/
def optimizeBody (env : Env) (imageFile : File) (options : ImageOptimizationOptions)
    (prog : List ℤ) : Except (List ℤ) (File × List ℤ) :=
  let pr := probeStage env imageFile options prog
  let rs := resizeStage env imageFile options pr.1 pr.2
  let fileType := if rs.1.type = "" then "image/jpeg" else rs.1.type
  let prog1 := updateProgress options rs.2.2 15
  let compressionOptions : CompressionOptions :=
    { maxSizeMB := options.maxSizeMB
      maxWidthOrHeight := options.maxWidthOrHeight
      useWebWorker := true
      initialQuality := if rs.2.1 then some (mkRat 9 10) else options.quality
      fileType := fileType
      alwaysKeepResolution := false
      exifOrientation := 1 }
  let prog2 := (env.compressProgress).foldl
    (fun acc p => updateProgress options acc (mapCompressProgress p)) prog1
  match env.imageCompression rs.1 compressionOptions with
  | none => .error prog2
  | some compressed0 =>
    afterCompress env imageFile options fileType rs.1 compressed0
      (updateProgress options prog2 70)

/-- The input of optimizeImage: a File, or anything that fails the
instanceof File check of line 90 (null, undefined, a plain object). -/
inductive Input where
  | file (f : File)
  | invalid

/-- optimizeImage of the source.  The result pairs the produced file
with the trace of progress values delivered to the onProgress callback;
the only error result is the synchronous invalid-input rejection, every
internal failure being absorbed by the catch of line 243 which reports
progress 100 and falls back to the original file. -/
def optimizeImage (env : Env) (input : Input) (customOptions : Option PartialOptions) :
    Except String (File × List ℤ) :=
  match input with
  | .invalid => .error "Invalid image file provided"
  | .file imageFile =>
    let options := mergeOptions defaultOptions (customOptions.getD {})
    let prog := updateProgress options [] 5
    if imageFile.size ≤ 50 * 1024 then
      .ok (imageFile, updateProgress options prog 100)
    else
      match optimizeBody env imageFile options prog with
      | .ok r => .ok r
      | .error p => .ok (imageFile, updateProgress options p 100)

/-- Unfolding equation for optimizeImage on a File input. -/
theorem optimizeImage_file_eq (env : Env) (f : File) (co : Option PartialOptions) :
    optimizeImage env (.file f) co =
      if f.size ≤ 50 * 1024 then
        .ok (f, updateProgress (mergeOptions defaultOptions (co.getD {}))
          (updateProgress (mergeOptions defaultOptions (co.getD {})) [] 5) 100)
      else
        match optimizeBody env f (mergeOptions defaultOptions (co.getD {}))
            (updateProgress (mergeOptions defaultOptions (co.getD {})) [] 5) with
        | .ok r => .ok r
        | .error p => .ok (f, updateProgress (mergeOptions defaultOptions (co.getD {})) p 100) :=
  rfl

/-- C3 counterexample: a quality key present in the caller options with
the undefined value does override the default after the spread merge
(the merged quality becomes undefined although the default was 0.8), so
the claim that an undefined-valued present key does not override is
false on the code. -/
theorem mergeOptions_undefined_overrides :
    (mergeOptions defaultOptions { quality := some none }).quality = none ∧
    defaultOptions.quality = some (mkRat 4 5) ∧ mkRat 4 5 = (4/5 : ℚ) := by
  refine ⟨rfl, rfl, ?_⟩
  rw [Rat.mkRat_eq_div]
  norm_num

/-- C3 (amended): the merge is the JavaScript object spread: a key
absent from the caller options keeps its default, so no unspecified
field is dropped, and a key present in the caller options overrides the
default with its value even when that value is undefined. -/
theorem mergeOptions_spread_semantics (c : PartialOptions) :
    ((c.maxWidthOrHeight = none →
        (mergeOptions defaultOptions c).maxWidthOrHeight = defaultOptions.maxWidthOrHeight) ∧
      (∀ v, c.maxWidthOrHeight = some v → (mergeOptions defaultOptions c).maxWidthOrHeight = v)) ∧
    ((c.maxSizeMB = none →
        (mergeOptions defaultOptions c).maxSizeMB = defaultOptions.maxSizeMB) ∧
      (∀ v, c.maxSizeMB = some v → (mergeOptions defaultOptions c).maxSizeMB = v)) ∧
    ((c.quality = none →
        (mergeOptions defaultOptions c).quality = defaultOptions.quality) ∧
      (∀ v, c.quality = some v → (mergeOptions defaultOptions c).quality = v)) ∧
    ((c.useWebP = none →
        (mergeOptions defaultOptions c).useWebP = defaultOptions.useWebP) ∧
      (∀ v, c.useWebP = some v → (mergeOptions defaultOptions c).useWebP = v)) ∧
    ((c.debug = none →
        (mergeOptions defaultOptions c).debug = defaultOptions.debug) ∧
      (∀ v, c.debug = some v → (mergeOptions defaultOptions c).debug = v)) ∧
    ((c.onProgress = none →
        (mergeOptions defaultOptions c).onProgress = defaultOptions.onProgress) ∧
      (∀ v, c.onProgress = some v → (mergeOptions defaultOptions c).onProgress = v)) ∧
    ((c.enableSmartResize = none →
        (mergeOptions defaultOptions c).enableSmartResize = defaultOptions.enableSmartResize) ∧
      (∀ v, c.enableSmartResize = some v → (mergeOptions defaultOptions c).enableSmartResize = v)) ∧
    ((c.maxSmartDimension = none →
        (mergeOptions defaultOptions c).maxSmartDimension = defaultOptions.maxSmartDimension) ∧
      (∀ v, c.maxSmartDimension = some v → (mergeOptions defaultOptions c).maxSmartDimension = v)) ∧
    ((c.resizeThreshold = none →
        (mergeOptions defaultOptions c).resizeThreshold = defaultOptions.resizeThreshold) ∧
      (∀ v, c.resizeThreshold = some v → (mergeOptions defaultOptions c).resizeThreshold = v)) := by
  refine ⟨⟨fun h => ?_, fun v h => ?_⟩, ⟨fun h => ?_, fun v h => ?_⟩, ⟨fun h => ?_, fun v h => ?_⟩,
    ⟨fun h => ?_, fun v h => ?_⟩, ⟨fun h => ?_, fun v h => ?_⟩, ⟨fun h => ?_, fun v h => ?_⟩,
    ⟨fun h => ?_, fun v h => ?_⟩, ⟨fun h => ?_, fun v h => ?_⟩, ⟨fun h => ?_, fun v h => ?_⟩⟩ <;>
    simp [mergeOptions, h]

/-- C3 witness: a caller record with quality present as undefined and
maxSizeMB present as 2 merges to undefined quality, maxSizeMB 2, and
the untouched useWebP default. -/
theorem mergeOptions_spread_semantics_witness :
    (mergeOptions defaultOptions { quality := some none, maxSizeMB := some (some 2) }).quality
        = none ∧
    (mergeOptions defaultOptions { quality := some none, maxSizeMB := some (some 2) }).maxSizeMB
        = some 2 ∧
    (mergeOptions defaultOptions { quality := some none, maxSizeMB := some (some 2) }).useWebP
        = defaultOptions.useWebP := by
  have h := mergeOptions_spread_semantics { quality := some none, maxSizeMB := some (some 2) }
  exact ⟨h.2.2.1.2 none rfl, h.2.1.2 (some 2) rfl, h.2.2.2.1.1 rfl⟩

/-- C1: the invalid-input rejection is the only outward error: a
non-File input is rejected synchronously with the invalid-input
message and an empty progress trace, every File input produces an ok
result for every environment, and whenever the try body throws (any
internal failure), the call returns the original input file through the
catch. -/
theorem optimizeImage_error_boundary (env : Env) (f : File) (co : Option PartialOptions) :
    optimizeImage env .invalid co = .error "Invalid image file provided" ∧
    (∃ out, optimizeImage env (.file f) co = .ok out) ∧
    (∀ p, ¬ f.size ≤ 50 * 1024 →
      optimizeBody env f (mergeOptions defaultOptions (co.getD {}))
          (updateProgress (mergeOptions defaultOptions (co.getD {})) [] 5) = .error p →
      optimizeImage env (.file f) co =
        .ok (f, updateProgress (mergeOptions defaultOptions (co.getD {})) p 100)) := by
  refine ⟨rfl, ?_, ?_⟩
  · rw [optimizeImage_file_eq]
    by_cases hs : f.size ≤ 50 * 1024
    · rw [if_pos hs]
      exact ⟨_, rfl⟩
    · rw [if_neg hs]
      rcases hbody : optimizeBody env f (mergeOptions defaultOptions (co.getD {}))
          (updateProgress (mergeOptions defaultOptions (co.getD {})) [] 5) with p | r
      · exact ⟨_, rfl⟩
      · exact ⟨_, rfl⟩
  · intro p hbig hbody
    rw [optimizeImage_file_eq, if_neg hbig, hbody]

/-- An environment in which every capability fails and the runtime has
no WebP support. -/
def envFail : Env where
  webpSupported := false
  getImageDimensions := fun _ => none
  resizeBlob := fun _ _ _ _ => none
  imageCompression := fun _ _ => none
  compressProgress := []
  convertToWebP := fun _ _ => none

/-- A 60000-byte input file, above the 50 KiB skip bound. -/
def bigFile : File := { name := "big.png", type := "image/png", size := 60000 }

/-- C1 witness: with a dimension probe and a compression library that
both throw, the pipeline returns the original file through the catch
instead of failing the caller. -/
theorem optimizeImage_error_boundary_witness :
    optimizeImage envFail (.file bigFile) none = .ok (bigFile, []) :=
  (optimizeImage_error_boundary envFail bigFile none).2.2 [] (by decide) rfl

/-- C6: an input of at most 50 KiB is returned identically, and when a
progress callback is installed the delivered trace is 5 then 100, in
particular ending at exactly 100. -/
theorem optimizeImage_skip_small (env : Env) (f : File) (co : Option PartialOptions)
    (hsmall : f.size ≤ 50 * 1024) :
    ∃ l, optimizeImage env (.file f) co = .ok (f, l) ∧
      ((mergeOptions defaultOptions (co.getD {})).onProgress.isSome = true →
        l = [5, 100] ∧ l.getLast? = some 100) := by
  refine ⟨_, by rw [optimizeImage_file_eq, if_pos hsmall], ?_⟩
  intro hcb
  have hl : updateProgress (mergeOptions defaultOptions (co.getD {}))
      (updateProgress (mergeOptions defaultOptions (co.getD {})) [] 5) 100 = [5, 100] := by
    rw [updateProgress, updateProgress, if_pos hcb, if_pos hcb]
    decide
  exact ⟨hl, by rw [hl]; rfl⟩

/-- A 1000-byte input file, below the 50 KiB skip bound. -/
def smallFile : File := { name := "s.png", type := "", size := 1000 }

/-- Caller options installing a progress callback. -/
def coProgress : PartialOptions := { onProgress := some (some ()) }

/-- C6 witness: the 1000-byte file is returned identically under a
progress callback, with trace 5 then 100. -/
theorem optimizeImage_skip_small_witness :
    ∃ l, optimizeImage envFail (.file smallFile) (some coProgress) = .ok (smallFile, l) ∧
      ((mergeOptions defaultOptions ((some coProgress).getD {})).onProgress.isSome = true →
        l = [5, 100] ∧ l.getLast? = some 100) :=
  optimizeImage_skip_small envFail smallFile (some coProgress) (by decide)

/-- C7: a compression result strictly larger than its input is
discarded wholesale: the selected basis for the rest of the pipeline is
the pre-compression file, and the whole remainder of the run is
identical for any two oversized compression results. -/
theorem compression_regression_discarded (env : Env) (imageFile : File)
    (options : ImageOptimizationOptions) (fileType : String)
    (processedFile compressed0 compressed1 : File) (prog : List ℤ)
    (h0 : compressed0.size > processedFile.size)
    (h1 : compressed1.size > processedFile.size) :
    compressSelect processedFile compressed0 = processedFile ∧
    afterCompress env imageFile options fileType processedFile compressed0 prog =
      afterCompress env imageFile options fileType processedFile compressed1 prog := by
  have hsel0 : compressSelect processedFile compressed0 = processedFile := by
    rw [compressSelect, if_pos h0]
  have hsel1 : compressSelect processedFile compressed1 = processedFile := by
    rw [compressSelect, if_pos h1]
  refine ⟨hsel0, ?_⟩
  rw [afterCompress, afterCompress, hsel0, hsel1]

/-- C7 witness: two different oversized compression results (150 and
200 bytes for a 100-byte input) are both discarded and the continuation
is the same. -/
theorem compression_regression_discarded_witness :
    compressSelect { name := "p.png", type := "image/png", size := 100 }
        { name := "c.png", type := "image/png", size := 150 } =
      { name := "p.png", type := "image/png", size := 100 } ∧
    afterCompress envFail bigFile defaultOptions "image/png"
        { name := "p.png", type := "image/png", size := 100 }
        { name := "c.png", type := "image/png", size := 150 } [] =
      afterCompress envFail bigFile defaultOptions "image/png"
        { name := "p.png", type := "image/png", size := 100 }
        { name := "c.png", type := "image/png", size := 200 } [] :=
  compression_regression_discarded envFail bigFile defaultOptions "image/png"
    { name := "p.png", type := "image/png", size := 100 }
    { name := "c.png", type := "image/png", size := 150 }
    { name := "c.png", type := "image/png", size := 200 } [] (by decide) (by decide)

/-- C8: the WebP stage is a no-op returning its input file and trace
unchanged unless useWebP is truthy, the runtime supports WebP and the
current MIME type does not contain webp; and even when attempted, a
conversion result that is not strictly smaller (equal size included) or
a conversion failure leaves the prior file as the result. -/
theorem webpStage_policy (env : Env) (imageFile : File)
    (options : ImageOptimizationOptions) (fileType : String) (compressedFile : File)
    (prog : List ℤ) :
    (¬ (truthy options.useWebP = true ∧ isWebPSupported env = true ∧
          strIncludes fileType "webp" = false) →
      webpStage env imageFile options fileType
          (truthy options.useWebP && isWebPSupported env) compressedFile prog =
        (compressedFile, prog)) ∧
    (∀ b, env.convertToWebP compressedFile options.quality = some b →
      ¬ b.size < compressedFile.size →
      (webpStage env imageFile options fileType
          (truthy options.useWebP && isWebPSupported env) compressedFile prog).1 =
        compressedFile) ∧
    (env.convertToWebP compressedFile options.quality = none →
      (webpStage env imageFile options fileType
          (truthy options.useWebP && isWebPSupported env) compressedFile prog).1 =
        compressedFile) := by
  refine ⟨?_, ?_, ?_⟩
  · intro hcond
    have hfalse : ((truthy options.useWebP && isWebPSupported env) &&
        !(strIncludes fileType "webp")) = false := by
      cases hu : truthy options.useWebP <;> cases hs : isWebPSupported env <;>
        cases hi : strIncludes fileType "webp" <;> simp_all
    rw [webpStage, hfalse]
    simp
  · intro b hb hns
    rw [webpStage]
    split
    · simp [hb, hns]
    · rfl
  · intro hb
    rw [webpStage]
    split
    · simp [hb]
    · rfl

/-- An environment with WebP support whose WebP encoder produces a
500-byte blob. -/
def envW8 : Env where
  webpSupported := true
  getImageDimensions := fun _ => none
  resizeBlob := fun _ _ _ _ => none
  imageCompression := fun _ _ => none
  compressProgress := []
  convertToWebP := fun _ _ => some { size := 500 }

/-- C8 witness: a WebP result of exactly the prior size (500 bytes) is
rejected and the prior file kept. -/
theorem webpStage_policy_witness :
    (webpStage envW8 { name := "a.jpg", type := "image/jpeg", size := 700 } defaultOptions
        "image/jpeg" (truthy defaultOptions.useWebP && isWebPSupported envW8)
        { name := "a.jpg", type := "image/jpeg", size := 500 } []).1 =
      { name := "a.jpg", type := "image/jpeg", size := 500 } :=
  (webpStage_policy envW8 { name := "a.jpg", type := "image/jpeg", size := 700 } defaultOptions
      "image/jpeg" { name := "a.jpg", type := "image/jpeg", size := 500 } []).2.1
    { size := 500 } rfl (by decide)

theorem takeWhile_append_all {p : Char → Bool} {l1 : List Char} (l2 : List Char)
    (h : ∀ a ∈ l1, p a = true) : (l1 ++ l2).takeWhile p = l1 ++ l2.takeWhile p := by
  induction l1 with
  | nil => rfl
  | cons c t ih =>
    rw [List.cons_append, List.takeWhile_cons, h c (by simp)]
    rw [if_pos rfl, ih (fun a ha => h a (by simp [ha])), List.cons_append]

theorem dropWhile_append_all {p : Char → Bool} {l1 : List Char} (l2 : List Char)
    (h : ∀ a ∈ l1, p a = true) : (l1 ++ l2).dropWhile p = l2.dropWhile p := by
  induction l1 with
  | nil => rfl
  | cons c t ih =>
    rw [List.cons_append, List.dropWhile_cons, h c (by simp)]
    rw [if_pos rfl, ih (fun a ha => h a (by simp [ha]))]

/-- The name replacement on a name of the form stem.ext, with ext
nonempty and free of dots and slashes: the extension is replaced by
.webp. -/
theorem replaceExtWithWebp_spec (stem ext : String) (hne : ext.toList ≠ [])
    (hok : ∀ ch ∈ ext.toList, ch ≠ '.' ∧ ch ≠ '/') :
    replaceExtWithWebp (stem ++ "." ++ ext) = stem ++ ".webp" := by
  have hall : ∀ a ∈ ext.toList.reverse, ((a != '.') && (a != '/')) = true := by
    intro a ha
    rcases hok a (List.mem_reverse.mp ha) with ⟨h1, h2⟩
    simp [h1, h2]
  have hlist : (stem ++ "." ++ ext).toList = stem.toList ++ '.' :: ext.toList := by
    show (stem ++ "." ++ ext).data = stem.data ++ '.' :: ext.data
    rw [String.data_append, String.data_append, List.append_assoc]
    rfl
  have hrev : (stem ++ "." ++ ext).toList.reverse =
      ext.toList.reverse ++ ('.' :: stem.toList.reverse) := by
    rw [hlist, List.reverse_append, List.reverse_cons, List.append_assoc]
    rfl
  have hpred : (('.' != '.') && ('.' != '/')) = false := by decide
  have hext : ext.toList.reverse.isEmpty = false := by
    cases hx : ext.toList.reverse with
    | nil => exact absurd (List.reverse_eq_nil_iff.mp hx) hne
    | cons a t => rfl
  simp only [replaceExtWithWebp, hrev, takeWhile_append_all _ hall, dropWhile_append_all _ hall,
    List.takeWhile_cons, List.dropWhile_cons, hpred, Bool.false_eq_true, if_false,
    List.append_nil, hext, List.reverse_reverse, beq_self_eq_true, Bool.not_false,
    Bool.and_self, Bool.and_true, if_true]
  show String.mk (stem.data ++ ".webp".data) = stem ++ ".webp"
  rfl

/-- C10: the WebP stage result is either the prior compressed file
itself, keeping its name and type, or, exactly when a conversion result
strictly smaller than the prior file was adopted, a new file whose MIME
type is exactly image/webp, whose size is the converted blob size, and
whose name is the input file name with its final extension replaced by
.webp; on a name of the form stem.ext the replacement yields
stem.webp. -/
theorem webpStage_adopted_file_shape (env : Env) (imageFile : File)
    (options : ImageOptimizationOptions) (fileType : String) (useWebP : Bool)
    (compressedFile : File) (prog : List ℤ) :
    ((webpStage env imageFile options fileType useWebP compressedFile prog).1 =
        compressedFile ∨
      ∃ b, env.convertToWebP compressedFile options.quality = some b ∧
        b.size < compressedFile.size ∧
        (webpStage env imageFile options fileType useWebP compressedFile prog).1 =
          { name := replaceExtWithWebp imageFile.name, type := "image/webp",
            size := b.size }) ∧
    (∀ stem ext : String, ext.toList ≠ [] →
      (∀ ch ∈ ext.toList, ch ≠ '.' ∧ ch ≠ '/') →
      replaceExtWithWebp (stem ++ "." ++ ext) = stem ++ ".webp") := by
  constructor
  · rw [webpStage]
    split
    · rcases hconv : env.convertToWebP compressedFile options.quality with _ | b
      · left
        simp
      · by_cases hsz : b.size < compressedFile.size
        · right
          exact ⟨b, rfl, hsz, by simp [hsz]⟩
        · left
          simp [hsz]
    · left
      rfl
  · exact fun stem ext hne hok => replaceExtWithWebp_spec stem ext hne hok

/-- C10 witness: the replacement applied to photo.jpg gives photo.webp,
via the stage theorem. -/
theorem webpStage_adopted_file_shape_witness :
    replaceExtWithWebp ("photo" ++ "." ++ "jpg") = "photo" ++ ".webp" :=
  (webpStage_adopted_file_shape envW8 { name := "x", type := "", size := 0 } defaultOptions
      "" false { name := "x", type := "", size := 0 } []).2 "photo" "jpg"
    (by decide) (by decide)

/-- The dimensions output of probeStage does not depend on the incoming
trace. -/
theorem probeStage_fst (env : Env) (f : File) (o : ImageOptimizationOptions) (p : List ℤ) :
    (probeStage env f o p).1 = (probeStage env f o []).1 := by
  rw [probeStage, probeStage]
  cases env.getImageDimensions f <;> rfl

/-- The file and adoption-flag outputs of resizeStage do not depend on
the incoming trace. -/
theorem resizeStage_indep (env : Env) (f : File) (o : ImageOptimizationOptions)
    (d : Option Dimensions) (p : List ℤ) :
    (resizeStage env f o d p).1 = (resizeStage env f o d []).1 ∧
    (resizeStage env f o d p).2.1 = (resizeStage env f o d []).2.1 := by
  rcases d with _ | d
  · exact ⟨rfl, rfl⟩
  · simp only [resizeStage]
    split
    · split
      · split <;> exact ⟨rfl, rfl⟩
      · exact ⟨rfl, rfl⟩
    · exact ⟨rfl, rfl⟩

/-- The WebP stage never increases the size of the carried file. -/
theorem webpStage_size_le (env : Env) (imageFile : File) (o : ImageOptimizationOptions)
    (ft : String) (u : Bool) (c : File) (p : List ℤ) :
    (webpStage env imageFile o ft u c p).1.size ≤ c.size := by
  rw [webpStage]
  split
  · rcases hconv : env.convertToWebP c o.quality with _ | b
    · simp
    · by_cases hsz : b.size < c.size
      · simp only []
        rw [if_pos hsz]
        exact le_of_lt hsz
      · simp only []
        rw [if_neg hsz]
  · exact le_refl _

/-- The size-regression selection never increases the size relative to
the pre-compression file. -/
theorem compressSelect_size_le (pf c0 : File) : (compressSelect pf c0).size ≤ pf.size := by
  rw [compressSelect]
  split
  · exact le_refl _
  · exact le_of_not_lt (by assumption)

/-- An ok result of afterCompress is at most as large as the
pre-compression file. -/
theorem afterCompress_size (env : Env) (imageFile : File) (o : ImageOptimizationOptions)
    (ft : String) (pf c0 : File) (p : List ℤ) (out : File) (l : List ℤ)
    (h : afterCompress env imageFile o ft pf c0 p = .ok (out, l)) :
    out.size ≤ pf.size := by
  have hws := webpStage_size_le env imageFile o ft (truthy o.useWebP && isWebPSupported env)
      (compressSelect pf c0) p
  have hsel := compressSelect_size_le pf c0
  simp only [afterCompress] at h
  split at h
  · split at h
    · cases h
      exact le_trans hws hsel
    · cases h
  · cases h
    exact le_trans hws hsel

/-- An ok result of the try body is at most as large as the resize-stage
output file. -/
theorem optimizeBody_size (env : Env) (f : File) (o : ImageOptimizationOptions)
    (prog : List ℤ) (out : File) (l : List ℤ)
    (h : optimizeBody env f o prog = .ok (out, l)) :
    out.size ≤
      (resizeStage env f o (probeStage env f o prog).1 (probeStage env f o prog).2).1.size := by
  simp only [optimizeBody] at h
  split at h
  · cases h
  · exact afterCompress_size env f o _ _ _ _ out l h

/-- An environment in which the probe reports 900 by 100, so the smart
resize upscales to 1800 by 200, the canvas encoder returns a 100000-byte
blob and the compression library returns a 90000-byte file. -/
def envC2 : Env where
  webpSupported := false
  getImageDimensions := fun _ => some { width := 900, height := 100 }
  resizeBlob := fun _ _ _ _ => some { size := 100000 }
  imageCompression := fun _ _ => some { name := "wide.png", type := "image/png", size := 90000 }
  compressProgress := []
  convertToWebP := fun _ _ => none

/-- A 61440-byte 900 by 100 input. -/
def fileC2 : File := { name := "wide.png", type := "image/png", size := 61440 }

/-- The file envC2 produces: 90000 bytes. -/
def outC2 : File := { name := "wide.png", type := "image/png", size := 90000 }

/-- C2 counterexample: a successful, non-skipped run (61440 bytes is
above the skip bound, no stage fails) whose smart resize upscales a
900 by 100 image to 1800 by 200 returns a 90000-byte file: strictly
larger than the 61440-byte original and not the original itself.  The
code only compares the compressed result against the resized file,
never against the original. -/
theorem optimizeImage_size_can_regress :
    optimizeImage envC2 (.file fileC2) none = .ok (outC2, []) ∧
    50 * 1024 < fileC2.size ∧ fileC2.size < outC2.size ∧ outC2 ≠ fileC2 :=
  ⟨rfl, by decide, by decide, by decide⟩

/-- C2 (amended): the returned file is the original itself (skip and
failure paths), or its size is at most the size of the pre-compression
basis, i.e. the resize-stage output (the smart-resized file when one
was adopted, otherwise the original); in particular whenever the resize
stage passed the original through, the original claim holds: the result
is the original or no larger than it. -/
theorem optimizeImage_no_regression_vs_precompression (env : Env) (f : File)
    (co : Option PartialOptions) (out : File) (l : List ℤ)
    (hrun : optimizeImage env (.file f) co = .ok (out, l)) :
    (out = f ∨
      out.size ≤ (resizeStage env f (mergeOptions defaultOptions (co.getD {}))
        (probeStage env f (mergeOptions defaultOptions (co.getD {})) []).1 []).1.size) ∧
    ((resizeStage env f (mergeOptions defaultOptions (co.getD {}))
        (probeStage env f (mergeOptions defaultOptions (co.getD {})) []).1 []).1 = f →
      out = f ∨ out.size ≤ f.size) := by
  have hmain : out = f ∨
      out.size ≤ (resizeStage env f (mergeOptions defaultOptions (co.getD {}))
        (probeStage env f (mergeOptions defaultOptions (co.getD {})) []).1 []).1.size := by
    rw [optimizeImage_file_eq] at hrun
    by_cases hs : f.size ≤ 50 * 1024
    · rw [if_pos hs] at hrun
      cases hrun
      exact Or.inl rfl
    · rw [if_neg hs] at hrun
      rcases hbody : optimizeBody env f (mergeOptions defaultOptions (co.getD {}))
          (updateProgress (mergeOptions defaultOptions (co.getD {})) [] 5) with p | ⟨o2, l2⟩
      · rw [hbody] at hrun
        cases hrun
        exact Or.inl rfl
      · rw [hbody] at hrun
        cases hrun
        right
        have hsz := optimizeBody_size env f (mergeOptions defaultOptions (co.getD {}))
          (updateProgress (mergeOptions defaultOptions (co.getD {})) [] 5) out l hbody
        rw [(resizeStage_indep env f (mergeOptions defaultOptions (co.getD {}))
            (probeStage env f (mergeOptions defaultOptions (co.getD {}))
              (updateProgress (mergeOptions defaultOptions (co.getD {})) [] 5)).1
            (probeStage env f (mergeOptions defaultOptions (co.getD {}))
              (updateProgress (mergeOptions defaultOptions (co.getD {})) [] 5)).2).1,
          probeStage_fst] at hsz
        exact hsz
  refine ⟨hmain, fun hf => ?_⟩
  rcases hmain with h | h
  · exact Or.inl h
  · right
    rw [hf] at h
    exact h

/-- C2 witness: the amended bound holds on the envC2 run, where the
returned 90000-byte file is indeed bounded by the 100000-byte resized
basis. -/
theorem optimizeImage_no_regression_witness :
    (outC2 = fileC2 ∨
      outC2.size ≤ (resizeStage envC2 fileC2
        (mergeOptions defaultOptions ((none : Option PartialOptions).getD {}))
        (probeStage envC2 fileC2
          (mergeOptions defaultOptions ((none : Option PartialOptions).getD {})) []).1 []).1.size) ∧
    ((resizeStage envC2 fileC2
        (mergeOptions defaultOptions ((none : Option PartialOptions).getD {}))
        (probeStage envC2 fileC2
          (mergeOptions defaultOptions ((none : Option PartialOptions).getD {})) []).1 []).1 =
        fileC2 →
      outC2 = fileC2 ∨ outC2.size ≤ fileC2.size) :=
  optimizeImage_no_regression_vs_precompression envC2 fileC2 none outC2 [] rfl

/-- Well-formedness of a progress trace: non-decreasing, every value
within 0 and 100, and the last value bounded by hi. -/
def ProgOk (hi : ℤ) (l : List ℤ) : Prop :=
  l.Chain' (· ≤ ·) ∧ (∀ x ∈ l, 0 ≤ x ∧ x ≤ 100) ∧ (∀ x ∈ l.getLast?, x ≤ hi)

theorem ProgOk.nil (hi : ℤ) : ProgOk hi [] :=
  ⟨List.chain'_nil, by simp, by simp⟩

theorem ProgOk.mono {hi hi2 : ℤ} {l : List ℤ} (h : ProgOk hi l) (hle : hi ≤ hi2) :
    ProgOk hi2 l :=
  ⟨h.1, h.2.1, fun x hx => le_trans (h.2.2 x hx) hle⟩

/-- Reporting one more value through updateProgress preserves trace
well-formedness when the clamped value dominates the previous bound. -/
theorem ProgOk.push {hi : ℤ} {l : List ℤ} (h : ProgOk hi l)
    (o : ImageOptimizationOptions) (p : ℚ)
    (hle : hi ≤ jsMin (jsRound p) 100) (h0 : 0 ≤ jsMin (jsRound p) 100) :
    ProgOk (jsMin (jsRound p) 100) (updateProgress o l p) := by
  rw [updateProgress]
  split
  · refine ⟨?_, ?_, ?_⟩
    · rw [List.chain'_append]
      refine ⟨h.1, List.chain'_singleton _, ?_⟩
      intro x hx y hy
      simp at hy
      subst hy
      exact le_trans (h.2.2 x hx) hle
    · intro x hx
      rcases List.mem_append.mp hx with hx | hx
      · exact h.2.1 x hx
      · simp at hx
        subst hx
        refine ⟨h0, ?_⟩
        rw [jsMin_eq_min]
        exact min_le_right _ _
    · intro x hx
      rw [List.getLast?_concat] at hx
      simp at hx
      subst hx
      exact le_refl _
  · exact h.mono hle

/-- The final 100 report: the trace stays well formed and, when a
callback is present, now ends in exactly 100. -/
theorem ProgOk.push100 {l : List ℤ} (h : ProgOk 100 l) (o : ImageOptimizationOptions) :
    ProgOk 100 (updateProgress o l 100) ∧
    (o.onProgress.isSome = true → (updateProgress o l 100).getLast? = some 100) := by
  have h100 : jsMin (jsRound (100 : ℚ)) 100 = 100 := by decide
  constructor
  · have h2 := h.push o 100 (by decide) (by decide)
    rw [h100] at h2
    exact h2
  · intro hcb
    rw [updateProgress, if_pos hcb, List.getLast?_concat, h100]

theorem probeStage_progOk (env : Env) (f : File) (o : ImageOptimizationOptions)
    {prog : List ℤ} (h : ProgOk 5 prog) : ProgOk 10 (probeStage env f o prog).2 := by
  have h10 : jsMin (jsRound (10 : ℚ)) 100 = 10 := by decide
  rw [probeStage]
  cases env.getImageDimensions f
  · exact h.mono (by norm_num)
  · have h2 := h.push o 10 (by decide) (by decide)
    rw [h10] at h2
    exact h2

theorem resizeStage_progOk (env : Env) (f : File) (o : ImageOptimizationOptions)
    (d : Option Dimensions) {prog : List ℤ} (h : ProgOk 10 prog) :
    ProgOk 14 (resizeStage env f o d prog).2.2 := by
  have h12 : jsMin (jsRound (12 : ℚ)) 100 = 12 := by decide
  have h14 : jsMin (jsRound (14 : ℚ)) 100 = 14 := by decide
  rcases d with _ | d
  · exact h.mono (by norm_num)
  · simp only [resizeStage]
    split
    · split
      · have h2 := h.push o 12 (by decide) (by decide)
        rw [h12] at h2
        split
        · have h3 := h2.push o 14 (by decide) (by decide)
          rw [h14] at h3
          exact h3
        · exact h2.mono (by norm_num)
      · exact h.mono (by norm_num)
    · exact h.mono (by norm_num)

/-- The 15-65 band of the remapped compression progress: for a native
value within 0 and 100, the clamped report lies within 15 and 65. -/
theorem clampMapped_bounds (p : ℚ) (h0 : 0 ≤ p) (h1 : p ≤ 100) :
    15 ≤ jsMin (jsRound (mapCompressProgress p)) 100 ∧
    jsMin (jsRound (mapCompressProgress p)) 100 ≤ 65 := by
  have hm : mapCompressProgress p = 15 + p * (1/2) := by
    rw [mapCompressProgress, qAdd_eq, qMul_eq, Rat.mkRat_eq_div]
    norm_num
  have hlo : (15 : ℚ) ≤ mapCompressProgress p := by
    rw [hm]
    linarith
  have hhi : mapCompressProgress p ≤ 65 := by
    rw [hm]
    linarith
  have h15 : jsRound (15 : ℚ) = 15 := by decide
  have h65 : jsRound (65 : ℚ) = 65 := by decide
  constructor
  · rw [jsMin_eq_min, le_min_iff]
    refine ⟨?_, by norm_num⟩
    rw [← h15]
    exact jsRound_mono hlo
  · rw [jsMin_eq_min]
    have hr := jsRound_mono hhi
    rw [h65] at hr
    exact le_trans (min_le_left _ _) hr

theorem clampMapped_mono {p q : ℚ} (h : p ≤ q) :
    jsMin (jsRound (mapCompressProgress p)) 100 ≤
      jsMin (jsRound (mapCompressProgress q)) 100 := by
  have hm : ∀ r : ℚ, mapCompressProgress r = 15 + r * (1/2) := fun r => by
    rw [mapCompressProgress, qAdd_eq, qMul_eq, Rat.mkRat_eq_div]
    norm_num
  have hle : mapCompressProgress p ≤ mapCompressProgress q := by
    rw [hm, hm]
    linarith
  rw [jsMin_eq_min, jsMin_eq_min]
  exact min_le_min (jsRound_mono hle) (le_refl _)

/-- Folding the remapped compression progress reports over a well-formed
trace keeps it well formed with bound 65, provided the native values are
within 0 and 100 and non-decreasing. -/
theorem compressFold_progOk (o : ImageOptimizationOptions) (cp : List ℚ) :
    ∀ (l : List ℤ) (b : ℤ), ProgOk b l → b ≤ 65 →
      (∀ q ∈ cp.head?, b ≤ jsMin (jsRound (mapCompressProgress q)) 100) →
      (∀ p ∈ cp, 0 ≤ p ∧ p ≤ 100) → cp.Chain' (· ≤ ·) →
      ProgOk 65 (cp.foldl (fun acc p => updateProgress o acc (mapCompressProgress p)) l) := by
  induction cp with
  | nil =>
    intro l b h hb _ _ _
    exact h.mono hb
  | cons q rest ih =>
    intro l b h hb hhead hbound hchain
    rw [List.foldl_cons]
    have hq := hbound q (by simp)
    have hv := clampMapped_bounds q hq.1 hq.2
    have h2 := h.push o (mapCompressProgress q) (hhead q (by simp))
      (le_trans (by norm_num) hv.1)
    have hrest := List.chain'_cons'.mp hchain
    exact ih (updateProgress o l (mapCompressProgress q))
      (jsMin (jsRound (mapCompressProgress q)) 100) h2 hv.2
      (fun y hy => clampMapped_mono (hrest.1 y hy))
      (fun p hp => hbound p (by simp [hp])) hrest.2

theorem webpStage_progOk (env : Env) (imageFile : File) (o : ImageOptimizationOptions)
    (ft : String) (u : Bool) (c : File) {prog : List ℤ} (h : ProgOk 70 prog) :
    ProgOk 90 (webpStage env imageFile o ft u c prog).2 := by
  have h75 : jsMin (jsRound (75 : ℚ)) 100 = 75 := by decide
  have h85 : jsMin (jsRound (85 : ℚ)) 100 = 85 := by decide
  have h90 : jsMin (jsRound (90 : ℚ)) 100 = 90 := by decide
  rw [webpStage]
  split
  · have h2 := h.push o 75 (by decide) (by decide)
    rw [h75] at h2
    split
    · have h3 := h2.push o 85 (by decide) (by decide)
      rw [h85] at h3
      have h4 := h3.push o 90 (by decide) (by decide)
      rw [h90] at h4
      dsimp only
      split <;> exact h4
    · exact h2.mono (by norm_num)
  · exact h.mono (by norm_num)

/-- Trace discipline of the try body: an error carries a well-formed
trace, and an ok result carries a well-formed trace that, under a
callback, ends in exactly 100. -/
theorem optimizeBody_progress (env : Env) (f : File) (o : ImageOptimizationOptions)
    (prog : List ℤ) (h5 : ProgOk 5 prog)
    (hbound : ∀ p ∈ env.compressProgress, 0 ≤ p ∧ p ≤ 100)
    (hchain : env.compressProgress.Chain' (· ≤ ·)) :
    (∀ p, optimizeBody env f o prog = .error p → ProgOk 100 p) ∧
    (∀ out l, optimizeBody env f o prog = .ok (out, l) →
      ProgOk 100 l ∧ (o.onProgress.isSome = true → l.getLast? = some 100)) := by
  have hp15 : jsMin (jsRound (15 : ℚ)) 100 = 15 := by decide
  have hp70 : jsMin (jsRound (70 : ℚ)) 100 = 70 := by decide
  have h10 := probeStage_progOk env f o h5
  have h14 := resizeStage_progOk env f o (probeStage env f o prog).1 h10
  have h15 := h14.push o 15 (by decide) (by decide)
  rw [hp15] at h15
  have h65 := compressFold_progOk o env.compressProgress _ 15 h15 (by norm_num)
    (fun q hq =>
      (clampMapped_bounds q (hbound q (List.mem_of_mem_head? hq)).1
        (hbound q (List.mem_of_mem_head? hq)).2).1)
    hbound hchain
  have h70 := h65.push o 70 (by decide) (by decide)
  rw [hp70] at h70
  have hws : ∀ c : File, ProgOk 90 (webpStage env f o
      (if (resizeStage env f o (probeStage env f o prog).1
            (probeStage env f o prog).2).1.type = ""
        then "image/jpeg"
        else (resizeStage env f o (probeStage env f o prog).1
          (probeStage env f o prog).2).1.type)
      (truthy o.useWebP && isWebPSupported env) c
      (updateProgress o
        (List.foldl (fun acc p => updateProgress o acc (mapCompressProgress p))
          (updateProgress o
            (resizeStage env f o (probeStage env f o prog).1 (probeStage env f o prog).2).2.2 15)
          env.compressProgress)
        70)).2 :=
    fun c => webpStage_progOk env f o _ _ c h70
  constructor
  · intro p hp
    simp only [optimizeBody] at hp
    split at hp
    · cases hp
      exact h65.mono (by norm_num)
    · simp only [afterCompress] at hp
      split at hp
      · split at hp
        · cases hp
        · cases hp
          exact (hws _).mono (by norm_num)
      · cases hp
  · intro out l hl
    simp only [optimizeBody] at hl
    split at hl
    · cases hl
    · simp only [afterCompress] at hl
      split at hl
      · split at hl
        · cases hl
          exact ((hws _).mono (by norm_num)).push100 o
        · cases hl
      · cases hl
        exact ((hws _).mono (by norm_num)).push100 o

/-- C9: under a progress callback and a compression library that
reports native progress within 0 and 100 non-decreasingly, every run of
optimizeImage on a File (success, skip and failure paths alike, as all
of them produce an ok result) delivers a non-decreasing sequence of
integers within 0 and 100 whose final value is exactly 100; and the
remapping of the native compression progress lands in the 15 to 65
band. -/
theorem optimizeImage_progress_contract (env : Env) (f : File) (co : Option PartialOptions)
    (hcb : (mergeOptions defaultOptions (co.getD {})).onProgress.isSome = true)
    (hbound : ∀ p ∈ env.compressProgress, 0 ≤ p ∧ p ≤ 100)
    (hchain : env.compressProgress.Chain' (· ≤ ·)) :
    (∀ out l, optimizeImage env (.file f) co = .ok (out, l) →
      l.Chain' (· ≤ ·) ∧ (∀ x ∈ l, 0 ≤ x ∧ x ≤ 100) ∧ l.getLast? = some 100) ∧
    (∀ p : ℚ, 0 ≤ p → p ≤ 100 →
      15 ≤ jsMin (jsRound (mapCompressProgress p)) 100 ∧
      jsMin (jsRound (mapCompressProgress p)) 100 ≤ 65) := by
  refine ⟨?_, fun p h0 h1 => clampMapped_bounds p h0 h1⟩
  intro out l hrun
  have hp5 : jsMin (jsRound (5 : ℚ)) 100 = 5 := by decide
  have h5 := (ProgOk.nil 0).push (mergeOptions defaultOptions (co.getD {})) 5
    (by decide) (by decide)
  rw [hp5] at h5
  rw [optimizeImage_file_eq] at hrun
  by_cases hs : f.size ≤ 50 * 1024
  · rw [if_pos hs] at hrun
    cases hrun
    have hres := (h5.mono (by norm_num : (5 : ℤ) ≤ 100)).push100
      (mergeOptions defaultOptions (co.getD {}))
    exact ⟨hres.1.1, hres.1.2.1, hres.2 hcb⟩
  · rw [if_neg hs] at hrun
    have hbody := optimizeBody_progress env f (mergeOptions defaultOptions (co.getD {}))
      (updateProgress (mergeOptions defaultOptions (co.getD {})) [] 5) h5 hbound hchain
    rcases hb : optimizeBody env f (mergeOptions defaultOptions (co.getD {}))
        (updateProgress (mergeOptions defaultOptions (co.getD {})) [] 5) with p2 | ⟨o2, l2⟩
    · rw [hb] at hrun
      cases hrun
      have hperr := hbody.1 p2 hb
      have hres := hperr.push100 (mergeOptions defaultOptions (co.getD {}))
      exact ⟨hres.1.1, hres.1.2.1, hres.2 hcb⟩
    · rw [hb] at hrun
      cases hrun
      have hok := hbody.2 _ _ hb
      exact ⟨hok.1.1, hok.1.2.1, hok.2 hcb⟩

/-- An environment for the C9 witness: the probe fails, compression
succeeds at 100 bytes after reporting native progress 40 then 80, no
WebP support. -/
def envC9 : Env where
  webpSupported := false
  getImageDimensions := fun _ => none
  resizeBlob := fun _ _ _ _ => none
  imageCompression := fun _ _ => some { name := "b.png", type := "image/png", size := 100 }
  compressProgress := [40, 80]
  convertToWebP := fun _ _ => none

/-- C9 witness: the concrete run of envC9 delivers the trace 5, 15, 35,
55, 70, 100 (the native 40 and 80 remapped to 35 and 55), which is
non-decreasing, within 0 and 100, and ends at exactly 100. -/
theorem optimizeImage_progress_contract_witness :
    ([5, 15, 35, 55, 70, 100] : List ℤ).Chain' (· ≤ ·) ∧
    (∀ x ∈ ([5, 15, 35, 55, 70, 100] : List ℤ), 0 ≤ x ∧ x ≤ 100) ∧
    ([5, 15, 35, 55, 70, 100] : List ℤ).getLast? = some 100 :=
  (optimizeImage_progress_contract envC9 bigFile (some coProgress) (by decide)
      (by decide)
      (by rw [show envC9.compressProgress = [40, 80] from rfl, List.chain'_cons]
          exact ⟨by norm_num, List.chain'_singleton _⟩)).1
    { name := "b.png", type := "image/png", size := 100 } [5, 15, 35, 55, 70, 100] rfl

end ImgOpt
